import Mathlib

/-!
Verification of the move-model construction layer and the function-target IR layer.

The development shallowly embeds:
  * `language/move-model/src/lib.rs` — the model-builder pipeline
    (`run_model_builder_with_compilation_flags`, `collect_related_modules_recursive`,
    `run_bytecode_model_builder`, `add_move_lang_errors`, `run_spec_checker`); and
  * `language/move-prover/stackless-bytecode-generator/src/function_target.rs` —
    `FunctionTarget` / `FunctionTargetData` and their display logic.

Pure data is embedded directly; the external front end (parser, expansion,
compiler, bytecode verifier), which the source drives as a black box, is
embedded as a record of stage functions (`FrontEnd`).  Types whose definitions
live outside the two embedded files (`GlobalEnv` and friends from `model.rs`,
`ModuleBuilder::translate`, move-lang AST payloads) are modelled from the
specification where noted; payloads irrelevant to control flow are atoms.

Rust panics (`unwrap`/`expect`/out-of-range indexing) are modelled as `none` of
an `Option` where a claim depends on them; map lookups whose success the source
asserts by `unwrap` inside the module-graph traversal are modelled by a total
neighbour function, which agrees with the source on every input on which the
traversal completes.
-/

namespace Move

/-! ## Basic source-location and diagnostic data (modelled from the spec where noted) -/

/-- A byte span inside a file (atom). -/
abbrev Span := Nat

/-- `move_ir_types::location::Loc`: a file name plus a span. -/
structure MLoc where
  file : String
  span : Span
deriving DecidableEq

/-- One labelled message of a move-lang error: location plus text. -/
abbrev MLabel := MLoc × String

/-- `move_lang::errors::Errors`.  In the source this is a vector of label
vectors and `add_move_lang_errors` removes index 0 of each inner vector as the
primary label (panicking on an empty inner vector, which the front end never
produces); we embed each inner vector as primary label plus secondary labels,
which is the shape the source relies on. -/
structure MErr where
  primary : MLabel
  secondary : List MLabel
deriving DecidableEq

/-- The error channel of every front-end stage. -/
abbrev Errors := List MErr

/-- Modelled from the spec: a location in the environment, identifying a file
by a stable file id plus a span; `none` marks a file id that did not resolve. -/
structure Loc where
  file_id : Option Nat
  span : Span
deriving DecidableEq

/-- Modelled from the spec: `Loc::default()`, a synthetic location for
entities lacking source. -/
def Loc.dfl : Loc := { file_id := none, span := 0 }

/-- A `codespan` label: resolved file id, span, message. -/
structure Label where
  file_id : Option Nat
  span : Span
  msg : String
deriving DecidableEq

/-- A diagnostic accumulated in the environment: primary label plus
secondary labels. -/
structure Diagnostic where
  primary : Label
  secondary : List Label
deriving DecidableEq

/-! ## Compiled-bytecode data (`move_binary_format`, embedded as far as read) -/

/-- A compiled module: its self id (address + name), and its function/struct
definition tables.  A definition is embedded as the index of its handle; the
handle tables give the names (`identifier_at(handle_at(i).name)`). -/
structure CompiledModule where
  address : Nat
  name : String
  function_handles : List String
  function_defs : List Nat
  struct_handles : List String
  struct_defs : List Nat
deriving DecidableEq

/-- A compiled script; `into_module` is embedded as the `asModule` field. -/
structure CompiledScript where
  asModule : CompiledModule
deriving DecidableEq

/-- Source map of a compiled unit (atom). -/
abbrev SourceMap := Nat

/-- Per-function source metadata of a compiled unit (atom). -/
abbrev FunctionInfo := Nat

/-! ## Expansion AST (`move_lang::expansion::ast`, embedded as far as read) -/

/-- Bytes of a numerical address (`AddressBytes`), as a number. -/
abbrev AddressBytes := Nat

/-- Modelled from the spec: `AddressBytes::DEFAULT_ERROR_BYTES`, the designated
default-error sentinel address bytes (its concrete value is immaterial to the
embedded code; we fix the all-ones 16-byte pattern). -/
def DEFAULT_ERROR_BYTES : AddressBytes := 2 ^ 128 - 1

/-- `expansion::ast::Address`: named or anonymous (numerical). -/
inductive Address
  | named (n : String)
  | anonymous (bytes : AddressBytes)
deriving DecidableEq

/-- `ModuleIdent`: address plus module name.  The source wraps this in a
`Spanned`, whose equality and ordering ignore the location, so the location is
dropped here. -/
abbrev ModuleIdent := Address × String

/-- `expansion::ast::ModuleDefinition`, with payloads irrelevant to the
embedded control flow kept as atoms. -/
structure ModuleDefinition where
  attributes : List String
  loc : MLoc
  dependency_order : Nat
  immediate_neighbors : List ModuleIdent
  is_source_module : Bool
  friends : List ModuleIdent
  structs : List (String × Nat)
  constants : List (String × Nat)
  functions : List (String × Nat)
  specs : List Nat
deriving DecidableEq

/-- `expansion::ast::Script`. -/
structure Script where
  attributes : List String
  loc : MLoc
  immediate_neighbors : List ModuleIdent
  function_name : String
  constants : List (String × Nat)
  function : Nat
  specs : List Nat
deriving DecidableEq

/-- `expansion::ast::Program`: address declarations, modules keyed by ident,
scripts keyed by their key.  `UniqueMap`s are embedded as association lists. -/
structure EProgram where
  addresses : List (String × Option AddressBytes)
  modules : List (ModuleIdent × ModuleDefinition)
  scripts : List (String × Script)

/-- A parsed definition, read only for its source file name. -/
structure PDef where
  file : String
  body : Nat
deriving DecidableEq

/-- `parser::ast::Program`: target definitions and library (dependency)
definitions. -/
structure PProgram where
  source_definitions : List PDef
  lib_definitions : List PDef
deriving DecidableEq

/-- `compiled_unit::CompiledUnit`: a compiled module or script with its
source map and per-function info. -/
inductive CompiledUnit
  | module (ident : ModuleIdent) (module : CompiledModule)
      (source_map : SourceMap) (function_infos : List (String × FunctionInfo))
  | script (loc : MLoc) (key : String) (script : CompiledScript)
      (source_map : SourceMap) (function_info : FunctionInfo)
deriving DecidableEq

/-! ## The global environment (modelled from the spec: `model.rs` is outside
the embedded sources; only its interface used by `lib.rs` is modelled) -/

/-- Modelled from the spec: a function entry; the `stub` constructor is the
variant for material discovered only from bytecode (symbol, definition index,
handle), the `full` constructor stands for fully populated source-backed
entries. -/
inductive FunctionData
  | stub (sym : String) (def_idx : Nat) (handle : Nat)
  | full (sym : String)
deriving DecidableEq

/-- Modelled from the spec: a struct entry with its symbol, definition index,
location and specification conditions. -/
structure StructData where
  sym : String
  def_idx : Nat
  loc : Loc
  spec : List Nat
deriving DecidableEq

/-- A module name: numeric address plus symbol. -/
abbrev ModuleName := AddressBytes × String

/-- Modelled from the spec: a module entry of the environment — name, dense
integer identity, originating compiled module, function/struct tables and the
index-translation tables. -/
structure ModuleData where
  name : ModuleName
  id : Nat
  compiled : CompiledModule
  function_data : List (String × FunctionData)
  struct_data : List (String × StructData)
  function_idx_to_id : List (Nat × String)
  struct_idx_to_id : List (Nat × String)

/-- Modelled from the spec: the global environment — source-file table
(file id = position), documentation map, accumulated diagnostics, and the
module list in topological order. -/
structure GlobalEnv where
  sources : List (String × String × Bool)
  docs : List (Nat × String)
  diags : List Diagnostic
  module_data : List ModuleData

/-- `GlobalEnv::new()`: the empty environment. -/
def GlobalEnv.new : GlobalEnv := ⟨[], [], [], []⟩

/-- Modelled from the spec: register a source file; the file id of a
registered file is its position in the table. -/
def GlobalEnv.add_source (env : GlobalEnv) (fname fsrc : String) (is_dep : Bool) :
    GlobalEnv :=
  { env with sources := env.sources ++ [(fname, fsrc, is_dep)] }

/-- Position of the first entry for `fname`, counting from `i`. -/
def get_file_id_aux : List (String × String × Bool) → String → Nat → Option Nat
  | [], _, _ => none
  | (f, _, _) :: rest, fname, i =>
      if fname = f then some i else get_file_id_aux rest fname (i + 1)

/-- Modelled from the spec: resolve a file name to its file id. -/
def GlobalEnv.get_file_id (env : GlobalEnv) (fname : String) : Option Nat :=
  get_file_id_aux env.sources fname 0

/-- Modelled from the spec: convert a front-end location to an environment
location by resolving its file. -/
def GlobalEnv.to_loc (env : GlobalEnv) (l : MLoc) : Loc :=
  { file_id := env.get_file_id l.file, span := l.span }

/-- Modelled from the spec: append a diagnostic; diagnostics never abort. -/
def GlobalEnv.add_diag (env : GlobalEnv) (d : Diagnostic) : GlobalEnv :=
  { env with diags := env.diags ++ [d] }

/-- The `mk_label` closure of `add_move_lang_errors`. -/
def mk_label (env : GlobalEnv) (e : MLabel) : Label :=
  { file_id := (env.to_loc e.1).file_id, span := (env.to_loc e.1).span, msg := e.2 }

/-- The diagnostic `add_move_lang_errors` builds from one front-end error:
primary label plus secondary labels, locations resolved against the
environment's file table. -/
def diag_of (env : GlobalEnv) (err : MErr) : Diagnostic :=
  { primary := mk_label env err.primary
    secondary := err.secondary.map (mk_label env) }

/-- `add_move_lang_errors`: convert each front-end error into a diagnostic
(primary label plus secondary labels) and accumulate it. -/
def add_move_lang_errors (env : GlobalEnv) (errors : Errors) : GlobalEnv :=
  errors.foldl
    (fun env err =>
      env.add_diag
        { primary := mk_label env err.primary
          secondary := err.secondary.map (mk_label env) })
    env

/-! ## Dependency-closure traversal (`collect_related_modules_recursive`) -/

/-- `collect_related_modules_recursive`: depth-first traversal of the module
graph with a visited set.  The graph `g` gives each module the keys of its
`immediate_neighbors` map (the `deps` set of the source).  The source recurses
on a mutable `BTreeSet`; its termination rests on the visited set growing
inside the finite module map, which the embedding makes explicit through a
fuel argument — any fuel at least the number of modules is adequate
(`collect_char`). -/
def collect_related_modules_recursive {M : Type} [DecidableEq M]
    (g : M → List M) : Nat → M → Finset M → Finset M
  | 0, _, visited => visited
  | fuel + 1, mident, visited =>
      if mident ∈ visited then visited
      else
        (g mident).foldl
          (fun vs n => collect_related_modules_recursive g fuel n vs)
          (insert mident visited)

/-- One call of `collect_related_modules_recursive` per starting module, the
visited set threaded through — the iteration pattern of the pipeline. -/
def collectAll {M : Type} [DecidableEq M] (g : M → List M) (fuel : Nat)
    (starts : List M) (visited : Finset M) : Finset M :=
  starts.foldl (fun vs m => collect_related_modules_recursive g fuel m vs) visited

/-- Reachability in the module graph `g` along paths all of whose nodes avoid
`V` (the visited set): the mathematical counterpart of the traversal. -/
inductive ReachAvoid {M : Type} [DecidableEq M] (g : M → List M)
    (V : Finset M) : M → M → Prop
  | refl (m : M) : m ∉ V → ReachAvoid g V m m
  | step (m n x : M) : m ∉ V → n ∈ g m → ReachAvoid g V n x → ReachAvoid g V m x

/-! ## The model-builder pipeline (`run_model_builder_with_compilation_flags`) -/

/-- Association-list lookup (the read side of `UniqueMap` and of the file
table). -/
def alookup {α β : Type} [DecidableEq α] : List (α × β) → α → Option β
  | [], _ => none
  | (k, v) :: rest, key => if key = k then some v else alookup rest key

/-- The file table returned by the parser run (`FilesSourceText`). -/
abbrev Files := List (String × String)

/-- Documentation comments per file, as returned by the parser. -/
abbrev CommentMap := List (String × String)

/-- The external front end driven by the pipeline, embedded as the outcome of
its stages on the given input (source locations, dependency locations, flags).
`parseRun` is the `run::<PASS_PARSER>` call: its outer `Except` is the hard
result channel the source propagates with `?`, the inner one the ordinary
parse-error channel. -/
structure FrontEnd where
  parseRun : Except String (Files × Except Errors (CommentMap × PProgram))
  expand : PProgram → Except Errors EProgram
  compile : EProgram → Except Errors (List CompiledUnit)
  verify : List CompiledUnit → List CompiledUnit × Errors

/-- Insert into a sorted list (ordering step of `files.keys().sorted()`). -/
def insertSorted (x : String) : List String → List String
  | [] => [x]
  | y :: ys => if x ≤ y then x :: y :: ys else y :: insertSorted x ys

/-- `files.keys().sorted()`: the file names in sorted order. -/
def sortedKeys (files : Files) : List String :=
  (files.map Prod.fst).foldr insertSorted []

/-- The source-registration loops of the pipeline: add every file of the
parser's file table, in sorted key order, with the given dependency flag. -/
def addSources (env : GlobalEnv) (files : Files) (isDep : String → Bool) :
    GlobalEnv :=
  (sortedKeys files).foldl
    (fun e fname => e.add_source fname ((alookup files fname).getD "") (isDep fname))
    env

/-- The documentation-comment loop.  The source resolves each file name with
`get_file_id(..).expect(..)`; the `none` result embeds that panic. -/
def addDocs : GlobalEnv → CommentMap → Option GlobalEnv
  | env, [] => some env
  | env, (fname, documentation) :: rest =>
      match env.get_file_id fname with
      | none => none
      | some file_id => addDocs { env with docs := env.docs ++ [(file_id, documentation)] } rest

/-- Step 2 preamble: move every library definition into the source
definitions so that both are visible to the next stage. -/
def flattenProg (p : PProgram) : PProgram :=
  { source_definitions := p.source_definitions ++ p.lib_definitions
    lib_definitions := [] }

/-- The neighbour function of the expanded module graph: the keys of a
module's `immediate_neighbors` map.  The source looks the module up with
`modules.get(&mident).unwrap()`; a missing module (a panic in the source) is
given no neighbours here, which agrees with the source whenever the traversal
completes. -/
def graphOf (mods : List (ModuleIdent × ModuleDefinition)) (m : ModuleIdent) :
    List ModuleIdent :=
  match alookup mods m with
  | some mdef => mdef.immediate_neighbors
  | none => []

/-- The starting modules of the closure: every module whose source file is not
a dependency file. -/
def moduleStarts (p : EProgram) (deps : Finset String) : List ModuleIdent :=
  p.modules.filterMap
    (fun pr => if pr.2.loc.file ∈ deps then none else some pr.1)

/-- The starting modules contributed by scripts: every immediate neighbour of
every script whose source file is not a dependency file. -/
def scriptStarts (p : EProgram) (deps : Finset String) : List ModuleIdent :=
  (p.scripts.map
    (fun pr => if pr.2.loc.file ∈ deps then [] else pr.2.immediate_neighbors)).flatten

/-- The `visited_modules` set of the pipeline (lines 122-141 of `lib.rs`):
the traversal run from every non-dependency module, then from every
non-dependency script's immediate neighbours, threading one visited set. -/
def visitedModules (p : EProgram) (deps : Finset String) : Finset ModuleIdent :=
  collectAll (graphOf p.modules) p.modules.length
    (moduleStarts p deps ++ scriptStarts p deps) ∅

/-- The reachability property of the specification: `mid` is reachable via
immediate-neighbour edges from some module whose source file is not a
dependency file (including that module itself), or from some such script
through one of its immediate neighbours. -/
def reachableFromNonDep (p : EProgram) (deps : Finset String)
    (mid : ModuleIdent) : Prop :=
  (∃ pr ∈ p.modules, pr.2.loc.file ∉ deps ∧
      ReachAvoid (graphOf p.modules) ∅ pr.1 mid) ∨
  (∃ pr ∈ p.scripts, pr.2.loc.file ∉ deps ∧
      ∃ n ∈ pr.2.immediate_neighbors, ReachAvoid (graphOf p.modules) ∅ n mid)

/-- Whether a named address is the address of some visited module
(`visited_addresses.contains`). -/
def visitedAddr (vis : Finset ModuleIdent) (n : String) : Bool :=
  decide (∃ mid ∈ vis, mid.1 = Address.named n)

/-- Step 3, selective compilation (lines 149-168 of `lib.rs`): retain the
named addresses of visited modules, retain exactly the visited modules and
mark each `is_source_module`, keep the scripts. -/
def filterProgram (p : EProgram) (deps : Finset String) : EProgram :=
  let vis := visitedModules p deps
  { addresses := p.addresses.filter (fun a => visitedAddr vis a.1)
    modules := p.modules.filterMap
      (fun pr =>
        if pr.1 ∈ vis then some (pr.1, { pr.2 with is_source_module := true })
        else none)
    scripts := p.scripts }

/-! ## The bytecode/AST merge (`run_spec_checker`) -/

/-- `usize::MAX`, the dependency order given to a script pseudo-module. -/
def usize_MAX : Nat := 2 ^ 64 - 1

/-- Look a key up in an association list and remove its first binding
(`UniqueMap::remove`). -/
def lookupRemove {α β : Type} [DecidableEq α] :
    List (α × β) → α → Option (β × List (α × β))
  | [], _ => none
  | (k, v) :: rest, key =>
      if key = k then some (v, rest)
      else (lookupRemove rest key).map (fun r => (r.1, (k, v) :: r.2))

/-- A compiled unit merged with its expanded counterpart: the tuple the merge
loop of `run_spec_checker` produces per unit. -/
structure MergedModule where
  ident : ModuleIdent
  emod : ModuleDefinition
  compiled : CompiledModule
  source_map : SourceMap
  function_infos : List (String × FunctionInfo)

/-- The warning logged when a compiled module has no expanded counterpart. -/
def warnMsgModule (ident : ModuleIdent) : String :=
  "[internal] cannot associate bytecode module `" ++ ident.2 ++ "` with AST"

/-- The warning logged when a compiled script has no expanded counterpart. -/
def warnMsgScript (key : String) : String :=
  "[internal] cannot associate bytecode script `" ++ key ++ "` with AST"

/-- The warning a unit without an expanded counterpart produces. -/
def warnMsg : CompiledUnit → String
  | .module ident _ _ _ => warnMsgModule ident
  | .script _ key _ _ _ => warnMsgScript key

/-- Whether a unit finds no expanded counterpart in the given maps. -/
def noMatch (u : CompiledUnit) (mods : List (ModuleIdent × ModuleDefinition))
    (scrs : List (String × Script)) : Prop :=
  match u with
  | .module ident _ _ _ => lookupRemove mods ident = none
  | .script _ key _ _ _ => lookupRemove scrs key = none

/-- Lines 307-359 of `lib.rs`: convert a compiled script plus its expanded
script into a pseudo-module — anonymous default-error address, the script's
single function, no structs, no friends, marked as source module. -/
def scriptToModule (cs : CompiledScript) (smap : SourceMap)
    (finfo : FunctionInfo) (s : Script) : MergedModule :=
  let address := Address.anonymous DEFAULT_ERROR_BYTES
  let ident : ModuleIdent := (address, s.function_name)
  let function_infos := [(s.function_name, finfo)]
  let functions := [(s.function_name, s.function)]
  let emod : ModuleDefinition :=
    { attributes := s.attributes
      loc := s.loc
      dependency_order := usize_MAX
      immediate_neighbors := s.immediate_neighbors
      is_source_module := true
      friends := []
      structs := []
      constants := s.constants
      functions := functions
      specs := s.specs }
  ⟨ident, emod, cs.asModule, smap, function_infos⟩

/-- The `flat_map` of `run_spec_checker` (lines 278-362): associate each
compiled unit with its expanded counterpart, removing the counterpart from the
program; a unit without counterpart is skipped with a warning.  Returns the
merged units in input order together with the warnings. -/
def mergeUnits :
    List CompiledUnit → List (ModuleIdent × ModuleDefinition) →
    List (String × Script) → List MergedModule × List String
  | [], _, _ => ([], [])
  | u :: rest, mods, scrs =>
      match u with
      | .module ident cmod smap finfos =>
          match lookupRemove mods ident with
          | none =>
              let r := mergeUnits rest mods scrs
              (r.1, warnMsgModule ident :: r.2)
          | some (emod, mods2) =>
              let r := mergeUnits rest mods2 scrs
              (⟨ident, emod, cmod, smap, finfos⟩ :: r.1, r.2)
      | .script _loc key cs smap finfo =>
          match lookupRemove scrs key with
          | none =>
              let r := mergeUnits rest mods scrs
              (r.1, warnMsgScript key :: r.2)
          | some (s, scrs2) =>
              let r := mergeUnits rest mods scrs2
              (scriptToModule cs smap finfo s :: r.1, r.2)

/-- Modelled from the spec: `ModelBuilder::resolve_address` — an anonymous
address gives its bytes, a named address is resolved against the
named-address table. -/
def resolve_address (nm : List (String × AddressBytes)) (a : Address) :
    AddressBytes :=
  match a with
  | .anonymous bytes => bytes
  | .named n => (alookup nm n).getD 0

/-- Modelled from the spec: `ModuleBuilder::translate` — translate one merged
unit into a `ModuleData` entry with the allocated identity and append it to
the environment's module list. -/
def translate (env : GlobalEnv) (nm : List (String × AddressBytes))
    (module_count : Nat) (mu : MergedModule) : GlobalEnv :=
  let loc := env.to_loc mu.emod.loc
  let addr_bytes := resolve_address nm mu.ident.1
  let module_name : ModuleName := (addr_bytes, mu.ident.2)
  let md : ModuleData :=
    { name := module_name
      id := module_count
      compiled := mu.compiled
      function_data := mu.emod.functions.map (fun pr => (pr.1, FunctionData.full pr.1))
      struct_data :=
        (mu.emod.structs.enum).map
          (fun pr => (pr.2.1, { sym := pr.2.1, def_idx := pr.1, loc := loc, spec := [] }))
      function_idx_to_id := (mu.emod.functions.enum).map (fun pr => (pr.1, pr.2.1))
      struct_idx_to_id := (mu.emod.structs.enum).map (fun pr => (pr.1, pr.2.1)) }
  { env with module_data := env.module_data ++ [md] }

/-- The translation loop of `run_spec_checker` (lines 363-384): each merged
unit receives the sequential identity `module_count` of the enumeration and is
translated into the environment. -/
def runUnitsAux (nm : List (String × AddressBytes)) :
    GlobalEnv → Nat → List MergedModule → GlobalEnv
  | env, _, [] => env
  | env, module_count, mu :: rest =>
      runUnitsAux nm (translate env nm module_count mu) (module_count + 1) rest

/-- Modelled from the spec: `warn_unused_schemas`, a final non-fatal
consistency pass over specification schemas; schema tracking lies outside the
embedded state, so the environment passes through unchanged. -/
def warn_unused_schemas (env : GlobalEnv) : GlobalEnv := env

/-- `run_spec_checker`: build the named-address table, merge the verified
units with the expanded program, translate each merged unit in order.  The
second component collects the `warn!` log lines, which go to the logger and
not into the environment. -/
def run_spec_checker (env : GlobalEnv) (units : List CompiledUnit)
    (eprog : EProgram) : GlobalEnv × List String :=
  let nm := eprog.addresses.filterMap (fun pr => pr.2.map (fun b => (pr.1, b)))
  let r := mergeUnits units eprog.modules eprog.scripts
  (warn_unused_schemas (runUnitsAux nm env 0 r.1), r.2)

/-- `run_model_builder_with_compilation_flags`, over the embedded front end.
The outer `Except` is the function's `anyhow::Result` channel: the `?` on the
parser run propagates a hard failure, every later stage failure is recorded as
diagnostics and returned inside `Ok`.  The `Option` marks the
`get_file_id(..).expect(..)` panic of the documentation loop (`none` = panic).
-/
def run_model_builder_with_compilation_flags (fe : FrontEnd) :
    Except String (Option GlobalEnv) :=
  match fe.parseRun with
  | .error e => .error e
  | .ok (files, comments_and_compiler_res) =>
      match comments_and_compiler_res with
      | .error errors =>
          .ok (some (add_move_lang_errors
            (addSources GlobalEnv.new files (fun _ => false)) errors))
      | .ok (comment_map, parsed_prog) =>
          let dep_sources : Finset String :=
            (parsed_prog.lib_definitions.map PDef.file).toFinset
          let env := addSources GlobalEnv.new files
            (fun f => decide (f ∈ dep_sources))
          match addDocs env comment_map with
          | none => .ok none
          | some env =>
              match fe.expand (flattenProg parsed_prog) with
              | .error errors => .ok (some (add_move_lang_errors env errors))
              | .ok expansion_ast =>
                  let expansion_ast := filterProgram expansion_ast dep_sources
                  match fe.compile expansion_ast with
                  | .error errors => .ok (some (add_move_lang_errors env errors))
                  | .ok units =>
                      let vr := fe.verify units
                      if vr.2.isEmpty then
                        .ok (some (run_spec_checker env vr.1 expansion_ast).1)
                      else .ok (some (add_move_lang_errors env vr.2))

/-- `run_model_builder`: the default-flags entry point. -/
def run_model_builder (fe : FrontEnd) : Except String (Option GlobalEnv) :=
  run_model_builder_with_compilation_flags fe

/-! ## The bytecode-only builder (`run_bytecode_model_builder`) -/

/-- `identifier_at`: resolve a handle-table index to a name. -/
def identifier_at (names : List String) (i : Nat) : String :=
  (names.get? i).getD ""

/-- `addr_to_big_uint`: the numeric value of an account address (addresses
are embedded numerically already). -/
def addr_to_big_uint (addr : Nat) : Nat := addr

/-- Modelled from the spec: `ModuleData::stub` — a module entry carrying only
name, identity and the compiled module, with empty tables. -/
def ModuleData.stub (name : ModuleName) (id : Nat) (m : CompiledModule) :
    ModuleData :=
  ⟨name, id, m, [], [], [], []⟩

/-- Modelled from the spec: `GlobalEnv::create_struct_data` — a struct entry
from the given symbol, definition index, location and specification. -/
def create_struct_data (_m : CompiledModule) (def_idx : Nat) (sym : String)
    (loc : Loc) (spec : List Nat) : StructData :=
  ⟨sym, def_idx, loc, spec⟩

/-- The loop body of `run_bytecode_model_builder` for the `i`-th module:
build a stub `ModuleData`, fill its function entries with `FunctionData::stub`
and its struct entries with default location and empty specification, and push
it. -/
def buildModule (env : GlobalEnv) (i : Nat) (m : CompiledModule) : GlobalEnv :=
  let module_name : ModuleName := (addr_to_big_uint m.address, m.name)
  let md0 := ModuleData.stub module_name i m
  let md :=
    { md0 with
      function_data :=
        (m.function_defs.enum).map
          (fun pr =>
            (identifier_at m.function_handles pr.2,
             FunctionData.stub (identifier_at m.function_handles pr.2) pr.1 pr.2))
      function_idx_to_id :=
        (m.function_defs.enum).map
          (fun pr => (pr.1, identifier_at m.function_handles pr.2))
      struct_data :=
        (m.struct_defs.enum).map
          (fun pr =>
            (identifier_at m.struct_handles pr.2,
             create_struct_data m pr.1 (identifier_at m.struct_handles pr.2)
               Loc.dfl []))
      struct_idx_to_id :=
        (m.struct_defs.enum).map
          (fun pr => (pr.1, identifier_at m.struct_handles pr.2)) }
  { env with module_data := env.module_data ++ [md] }

/-- The enumerated module loop of `run_bytecode_model_builder`. -/
def buildModules : GlobalEnv → Nat → List CompiledModule → GlobalEnv
  | env, _, [] => env
  | env, i, m :: rest => buildModules (buildModule env i m) (i + 1) rest

/-- `run_bytecode_model_builder`: build a stub environment from compiled
modules only; the `i`-th module receives identity `i`.  The source's
`anyhow::Result` has no failure path in the function body. -/
def run_bytecode_model_builder (modules : List CompiledModule) :
    Except String GlobalEnv :=
  .ok (buildModules GlobalEnv.new 0 modules)

/-! ## The function-target IR (`function_target.rs`) -/

/-- The sidecar annotation store of a function target (payloads are atoms
keyed by analysis tags). -/
structure Annots where
  entries : List (Nat × String)
deriving DecidableEq

/-- A type of the prover IR; only its rendered form is read by the embedded
code, so the rendering is the datum. -/
structure MType where
  render : String
deriving DecidableEq

/-- A stackless bytecode instruction; only its rendered form is read by the
embedded display code. -/
structure Bytecode where
  render : String
deriving DecidableEq

/-- The part of `FunctionEnv` that `FunctionTarget` and its display read:
name, module name, visibility, type parameters, parameter count, local
names, location. -/
structure FunctionEnvData where
  name : String
  module_name : String
  is_public : Bool
  is_native : Bool
  type_params : List String
  parameter_count : Nat
  local_names : List String
  loc : Loc
deriving DecidableEq

/-- `FunctionTargetData`: the owned, rewritable per-function state. -/
structure FunctionTargetData where
  code : List Bytecode
  local_types : List MType
  return_types : List MType
  locations : List (Nat × Loc)
  annots : Annots
deriving DecidableEq

/-- `FunctionTarget`: the borrowed view of a function plus its target data
plus the registered annotation formatters (the `annotation_formatters`
`RefCell`).  A formatter receives the target itself and a code offset in the
source; since the target it receives is always the displayed one, a formatter
is embedded as its partial application to the target, a function from offsets
to optional text. -/
structure FunctionTarget where
  func_env : FunctionEnvData
  data : FunctionTargetData
  annot_formatters : List (Nat → Option String)

/-- `FunctionTarget::new`: bind a function environment and target data, with
no formatters registered. -/
def FunctionTarget.new (fe : FunctionEnvData) (d : FunctionTargetData) :
    FunctionTarget :=
  ⟨fe, d, []⟩

/-- `get_return_type`: Rust indexing `&self.data.return_types[idx]`; the
out-of-range panic is embedded as `none`. -/
def get_return_type (t : FunctionTarget) (idx : Nat) : Option MType :=
  t.data.return_types.get? idx

/-- `get_return_count`. -/
def get_return_count (t : FunctionTarget) : Nat :=
  t.data.return_types.length

/-- `get_parameter_count` (delegated to the function environment). -/
def get_parameter_count (t : FunctionTarget) : Nat :=
  t.func_env.parameter_count

/-- `get_local_name` (delegated to the function environment). -/
def get_local_name (t : FunctionTarget) (idx : Nat) : String :=
  (t.func_env.local_names.get? idx).getD ""

/-- `get_local_count`: number of locals including parameters. -/
def get_local_count (t : FunctionTarget) : Nat :=
  t.data.local_types.length

/-- `get_local_type`: Rust indexing `&self.data.local_types[idx]`; the
out-of-range panic is embedded as `none`. -/
def get_local_type (t : FunctionTarget) (idx : Nat) : Option MType :=
  t.data.local_types.get? idx

/-- `get_code`. -/
def get_code (t : FunctionTarget) : List Bytecode :=
  t.data.code

/-- `get_annotations` (source name; `annotations` is shortened to `annots`
throughout the embedding). -/
def get_annots (t : FunctionTarget) : Annots :=
  t.data.annots

/-- `register_annotation_formatter`: push one formatter (append-only). -/
def register_annot_formatter (t : FunctionTarget) (f : Nat → Option String) :
    FunctionTarget :=
  { t with annot_formatters := t.annot_formatters ++ [f] }

/-- Register a sequence of formatters in order. -/
def registerAll (t : FunctionTarget) (fs : List (Nat → Option String)) :
    FunctionTarget :=
  fs.foldl register_annot_formatter t

/-- The formatter outputs collected for one code offset, in registration
order (`.iter().filter_map(|f| f(self, offset))`). -/
def annotStringsAt (t : FunctionTarget) (offset : Nat) : List String :=
  t.annot_formatters.filterMap (fun f => f offset)

/-- Rendering of an optional type (in-range indexing in the display loops). -/
def typeStr (o : Option MType) : String :=
  (o.getD { render := "" }).render

/-- `impl fmt::Display for FunctionTarget` (lines 197-275): header with
visibility, qualified name, type parameters, parameter list, return types;
then one line per introduced local; then per instruction an optional comment
line joining every formatter's output for that offset, and the instruction.
-/
def fmt (t : FunctionTarget) : String :=
  let head :=
    (if t.func_env.is_public then "pub " else "")
      ++ "fun " ++ t.func_env.module_name ++ "::" ++ t.func_env.name
  let tparams :=
    if t.func_env.type_params.isEmpty then ""
    else "<" ++ String.intercalate ", " t.func_env.type_params ++ ">"
  let params :=
    String.intercalate ", "
      ((List.range (get_parameter_count t)).map
        (fun i => get_local_name t i ++ ": " ++ typeStr (get_local_type t i)))
  let rets :=
    if get_return_count t > 0 then
      ": " ++ (if get_return_count t > 1 then "(" else "")
        ++ String.intercalate ", "
          ((List.range (get_return_count t)).map
            (fun i => typeStr (get_return_type t i)))
        ++ (if get_return_count t > 1 then ")" else "")
    else ""
  let locals :=
    String.join
      (((List.range (get_local_count t)).drop (get_parameter_count t)).map
        (fun i =>
          "    var " ++ get_local_name t i ++ ": "
            ++ typeStr (get_local_type t i) ++ "\n"))
  let codeLines :=
    String.join
      ((get_code t).enum.map
        (fun pr =>
          let anns := String.intercalate ", " (annotStringsAt t pr.1)
          (if anns.isEmpty then "" else "    // " ++ anns ++ "\n")
            ++ "    " ++ pr.2.render ++ "\n"))
  head ++ tparams ++ "(" ++ params ++ ")" ++ rets ++ " \x7b\n"
    ++ locals ++ codeLines ++ "\x7d\n"

/-! ## Concrete instances used by witnesses and counterexamples -/

/-- A front end whose parser invocation itself hard-fails (e.g. a source path
that cannot be read). -/
def feHard : FrontEnd :=
  { parseRun := .error "io error"
    expand := fun _ => .error []
    compile := fun _ => .error []
    verify := fun us => (us, []) }

/-- A front end whose parser runs but reports one parse error in one file. -/
def feParseErrs : FrontEnd :=
  { parseRun :=
      .ok ([("a.move", "module")],
        .error [⟨((⟨"a.move", 0⟩ : MLoc), "unexpected token"), []⟩])
    expand := fun _ => .error []
    compile := fun _ => .error []
    verify := fun us => (us, []) }

/-- A compiled module with empty tables. -/
def exCompMod : CompiledModule :=
  { address := 0, name := "M", function_handles := [], function_defs := []
    struct_handles := [], struct_defs := [] }

/-- A module definition with empty payloads. -/
def exModDef : ModuleDefinition :=
  { attributes := [], loc := ⟨"m.move", 0⟩, dependency_order := 0
    immediate_neighbors := [], is_source_module := false, friends := []
    structs := [], constants := [], functions := [], specs := [] }

/-- An expanded script named `main`. -/
def exScript : Script :=
  { attributes := [], loc := ⟨"s.move", 0⟩, immediate_neighbors := []
    function_name := "main", constants := [], function := 0, specs := [] }

/-- A module identifier sitting at the anonymous default-error address: a
legal real-module identifier that collides with the script sentinel. -/
def exIdent6 : ModuleIdent := (Address.anonymous DEFAULT_ERROR_BYTES, "M")

/-- Verified units: one real module at the sentinel address, one script. -/
def exUnits6 : List CompiledUnit :=
  [CompiledUnit.module exIdent6 exCompMod 0 [],
   CompiledUnit.script ⟨"s.move", 0⟩ "k" ⟨exCompMod⟩ 0 0]

/-- The expanded counterpart of `exUnits6`. -/
def exMods6 : List (ModuleIdent × ModuleDefinition) := [(exIdent6, exModDef)]

/-- The expanded scripts of `exUnits6`. -/
def exScrs6 : List (String × Script) := [("k", exScript)]

/-- A compiled unit with no expanded counterpart anywhere. -/
def exUnit7 : CompiledUnit :=
  CompiledUnit.module (Address.named "Std", "Vector") exCompMod 0 []

/-- An expanded program with nothing in it. -/
def exProgEmpty : EProgram := { addresses := [], modules := [], scripts := [] }

/-- A one-module expanded program whose module is a target (non-dependency). -/
def exProg4 : EProgram :=
  { addresses := []
    modules := [((Address.named "A", "M"), exModDef)]
    scripts := [] }

/-- A three-node cyclic module graph on `Fin 3`. -/
def g3 : Fin 3 → List (Fin 3) := fun m => [m + 1]

/-- A function environment for the display witnesses. -/
def exFE : FunctionEnvData :=
  { name := "f", module_name := "M", is_public := true, is_native := false
    type_params := [], parameter_count := 1, local_names := ["x", "y"]
    loc := Loc.dfl }

/-- Target data with one instruction, two locals, one return. -/
def exData : FunctionTargetData :=
  { code := [⟨"nop"⟩], local_types := [⟨"u64"⟩, ⟨"bool"⟩]
    return_types := [⟨"u64"⟩], locations := [], annots := ⟨[]⟩ }

/-- A concrete function target. -/
def exTarget : FunctionTarget := FunctionTarget.new exFE exData

/-- A concrete annotation formatter. -/
def exFmtr : Nat → Option String := fun o => some (toString o)

/-! ## Lemmas: the traversal computes avoiding-reachability -/

section Graph

variable {M : Type} [DecidableEq M] {g : M → List M}

theorem reach_src_not_mem {V : Finset M} {a x : M}
    (h : ReachAvoid g V a x) : a ∉ V := by
  cases h with
  | refl _ hm => exact hm
  | step _ n _ hm _ _ => exact hm

theorem reach_mono {V W : Finset M} (hVW : V ⊆ W) {a x : M}
    (h : ReachAvoid g W a x) : ReachAvoid g V a x := by
  induction h with
  | refl m hm => exact .refl m (fun hc => hm (hVW hc))
  | step m n y hm hn _ ih => exact .step m n y (fun hc => hm (hVW hc)) hn ih

theorem reach_trans {V : Finset M} {a b x : M} (h1 : ReachAvoid g V a b) :
    ReachAvoid g V b x → ReachAvoid g V a x := by
  induction h1 with
  | refl m _ => exact id
  | step m n b hm hn _ ih => exact fun h2 => .step m n x hm hn (ih h2)

theorem reach_split {V : Finset M} {m : M} (hm : m ∉ V) {a x : M}
    (h : ReachAvoid g V a x) :
    ReachAvoid g (insert m V) a x ∨ x = m ∨
      ∃ n ∈ g m, ReachAvoid g (insert m V) n x := by
  induction h with
  | refl a ha =>
      by_cases ham : a = m
      · exact Or.inr (Or.inl ham)
      · exact Or.inl (.refl a (by simp [Finset.mem_insert, ham, ha]))
  | step a n y ha hn _ ih =>
      rcases ih with h' | h' | h'
      · by_cases ham : a = m
        · subst ham
          exact Or.inr (Or.inr ⟨n, hn, h'⟩)
        · exact Or.inl (.step a n y (by simp [Finset.mem_insert, ham, ha]) hn h')
      · exact Or.inr (Or.inl h')
      · exact Or.inr (Or.inr h')

theorem reach_insert_iff {V : Finset M} {m : M} (hm : m ∉ V) {x : M} :
    ReachAvoid g V m x ↔
      x = m ∨ ∃ n ∈ g m, ReachAvoid g (insert m V) n x := by
  constructor
  · intro h
    rcases reach_split hm h with h' | h' | h'
    · exact absurd (Finset.mem_insert_self m V)
        (reach_src_not_mem h')
    · exact Or.inl h'
    · exact Or.inr h'
  · rintro (rfl | ⟨n, hn, h⟩)
    · exact .refl x hm
    · exact .step m n x hm hn (reach_mono (Finset.subset_insert m V) h)

theorem reach_closed_or {V W : Finset M} (_hVW : V ⊆ W)
    (hcl : ∀ y ∈ W, ∀ z, ReachAvoid g V y z → z ∈ W) {n x : M}
    (h : ReachAvoid g V n x) : x ∈ W ∨ ReachAvoid g W n x := by
  induction h with
  | refl a ha =>
      by_cases haW : a ∈ W
      · exact Or.inl haW
      · exact Or.inr (.refl a haW)
  | step a k y ha hk hr ih =>
      by_cases haW : a ∈ W
      · exact Or.inl (hcl a haW y (.step a k y ha hk hr))
      · rcases ih with hx | hx
        · exact Or.inl hx
        · exact Or.inr (.step a k y haW hk hx)

theorem foldl_collect_char {D : Finset M} (fuel : Nat)
    (ih : ∀ (V : Finset M) (m : M), m ∈ D → (D \ V).card ≤ fuel →
      ∀ x, x ∈ collect_related_modules_recursive g fuel m V ↔
        x ∈ V ∨ ReachAvoid g V m x) :
    ∀ (l : List M) (V : Finset M), (∀ m ∈ l, m ∈ D) → (D \ V).card ≤ fuel →
      ∀ x,
        x ∈ l.foldl (fun vs n => collect_related_modules_recursive g fuel n vs) V ↔
          x ∈ V ∨ ∃ m ∈ l, ReachAvoid g V m x := by
  intro l
  induction l with
  | nil => intro V _ _ x; simp
  | cons n ns IH =>
      intro V hl hfuel x
      have hnD : n ∈ D := hl n (List.mem_cons_self n ns)
      have hW1 := ih V n hnD hfuel
      have hVW1 : V ⊆ collect_related_modules_recursive g fuel n V :=
        fun y hy => (hW1 y).mpr (Or.inl hy)
      set W1 := collect_related_modules_recursive g fuel n V with hW1def
      have hcard : (D \ W1).card ≤ fuel :=
        le_trans
          (Finset.card_le_card
            (Finset.sdiff_subset_sdiff (Finset.Subset.refl D) hVW1))
          hfuel
      have hclW1 : ∀ y ∈ W1, ∀ z, ReachAvoid g V y z → z ∈ W1 := by
        intro y hy z hz
        rcases (hW1 y).mp hy with hyV | hyR
        · exact absurd hyV (reach_src_not_mem hz)
        · exact (hW1 z).mpr (Or.inr (reach_trans hyR hz))
      have hIH := IH W1 (fun m hm => hl m (List.mem_cons_of_mem n hm)) hcard x
      rw [List.foldl_cons]
      rw [hIH]
      constructor
      · rintro (hxW | ⟨m, hm, hR⟩)
        · rcases (hW1 x).mp hxW with hxV | hxR
          · exact Or.inl hxV
          · exact Or.inr ⟨n, List.mem_cons_self n ns, hxR⟩
        · exact Or.inr ⟨m, List.mem_cons_of_mem n hm, reach_mono hVW1 hR⟩
      · rintro (hxV | ⟨m, hm, hR⟩)
        · exact Or.inl (hVW1 hxV)
        · rcases List.mem_cons.mp hm with rfl | hm'
          · exact Or.inl ((hW1 x).mpr (Or.inr hR))
          · rcases reach_closed_or hVW1 hclW1 hR with hx | hx
            · exact Or.inl hx
            · exact Or.inr ⟨m, hm', hx⟩

theorem collect_char {D : Finset M} (hg : ∀ a, ∀ n ∈ g a, n ∈ D) :
    ∀ (fuel : Nat) (V : Finset M) (m : M), m ∈ D → (D \ V).card ≤ fuel →
      ∀ x, x ∈ collect_related_modules_recursive g fuel m V ↔
        x ∈ V ∨ ReachAvoid g V m x := by
  intro fuel
  induction fuel with
  | zero =>
      intro V m hm hfuel x
      have hDV : D \ V = ∅ := Finset.card_eq_zero.mp (Nat.le_zero.mp hfuel)
      have hmV : m ∈ V := Finset.sdiff_eq_empty_iff_subset.mp hDV hm
      simp only [collect_related_modules_recursive]
      constructor
      · exact Or.inl
      · rintro (hx | hx)
        · exact hx
        · exact absurd hmV (reach_src_not_mem hx)
  | succ fuel ih =>
      intro V m hm hfuel x
      by_cases hmV : m ∈ V
      · simp only [collect_related_modules_recursive, if_pos hmV]
        constructor
        · exact Or.inl
        · rintro (hx | hx)
          · exact hx
          · exact absurd hmV (reach_src_not_mem hx)
      · have hfuel2 : (D \ insert m V).card ≤ fuel := by
          rw [Finset.sdiff_insert,
            Finset.card_erase_of_mem (Finset.mem_sdiff.mpr ⟨hm, hmV⟩)]
          omega
        have hfold := foldl_collect_char fuel ih (g m) (insert m V)
          (fun n hn => hg m n hn) hfuel2 x
        simp only [collect_related_modules_recursive, if_neg hmV]
        rw [hfold, reach_insert_iff hmV (x := x), Finset.mem_insert]
        tauto

theorem collectAll_char {D : Finset M} (hg : ∀ a, ∀ n ∈ g a, n ∈ D)
    (fuel : Nat) (l : List M) (V : Finset M) (hl : ∀ m ∈ l, m ∈ D)
    (hfuel : (D \ V).card ≤ fuel) (x : M) :
    x ∈ collectAll g fuel l V ↔ x ∈ V ∨ ∃ m ∈ l, ReachAvoid g V m x :=
  foldl_collect_char fuel (collect_char hg fuel) l V hl hfuel x

end Graph

/-- Claim C3: dependency-closure computation is idempotent and
order-independent — for every module graph (with all neighbours inside the
module domain `D` and adequate fuel) and every fixed set of starting modules,
iterating `collect_related_modules_recursive` over the starting modules yields
the same visited set for any iteration order, and recomputing the closure from
the already-complete visited set leaves it unchanged. -/
theorem claim_C3 {M : Type} [DecidableEq M] (g : M → List M) (D : Finset M)
    (fuel : Nat) (l1 l2 : List M) (V : Finset M)
    (hg : ∀ a, ∀ n ∈ g a, n ∈ D) (hl : ∀ m ∈ l1, m ∈ D)
    (hfuel : (D \ V).card ≤ fuel) (hperm : l1.Perm l2) :
    collectAll g fuel l1 V = collectAll g fuel l2 V ∧
      collectAll g fuel l1 (collectAll g fuel l1 V) = collectAll g fuel l1 V := by
  have hl2 : ∀ m ∈ l2, m ∈ D := fun m hm => hl m (hperm.mem_iff.mpr hm)
  have hchar := collectAll_char hg fuel l1 V hl hfuel
  constructor
  · ext x
    rw [hchar x, collectAll_char hg fuel l2 V hl2 hfuel x]
    constructor
    · rintro (hx | ⟨m, hm, hR⟩)
      · exact Or.inl hx
      · exact Or.inr ⟨m, hperm.mem_iff.mp hm, hR⟩
    · rintro (hx | ⟨m, hm, hR⟩)
      · exact Or.inl hx
      · exact Or.inr ⟨m, hperm.mem_iff.mpr hm, hR⟩
  · have hVCA : V ⊆ collectAll g fuel l1 V := fun y hy => (hchar y).mpr (Or.inl hy)
    have hfuel2 : (D \ collectAll g fuel l1 V).card ≤ fuel :=
      le_trans
        (Finset.card_le_card
          (Finset.sdiff_subset_sdiff (Finset.Subset.refl D) hVCA))
        hfuel
    ext x
    rw [collectAll_char hg fuel l1 (collectAll g fuel l1 V) hl hfuel2 x]
    constructor
    · rintro (hx | ⟨m, hm, hR⟩)
      · exact hx
      · have hmCA : m ∈ collectAll g fuel l1 V := by
          by_cases hmV : m ∈ V
          · exact hVCA hmV
          · exact (hchar m).mpr (Or.inr ⟨m, hm, .refl m hmV⟩)
        exact absurd hmCA (reach_src_not_mem hR)
    · exact Or.inl

/-- Witness for C3 on a concrete three-node cyclic graph with two starting
orders. -/
theorem claim_C3_wit :
    collectAll g3 3 [0, 1] ∅ = collectAll g3 3 [1, 0] ∅ ∧
      collectAll g3 3 [0, 1] (collectAll g3 3 [0, 1] ∅) =
        collectAll g3 3 [0, 1] ∅ :=
  claim_C3 g3 Finset.univ 3 [0, 1] [1, 0] ∅ (by decide) (by decide) (by decide)
    (by decide)

/-! ## Lemmas: closure filtering in the pipeline -/

theorem alookup_mem {α β : Type} [DecidableEq α] :
    ∀ {l : List (α × β)} {k : α} {v : β}, alookup l k = some v → (k, v) ∈ l := by
  intro l
  induction l with
  | nil => intro k v h; simp [alookup] at h
  | cons hd tl ih =>
      intro k v h
      obtain ⟨a, b⟩ := hd
      by_cases hk : k = a
      · subst hk
        simp [alookup] at h
        simp [h]
      · simp [alookup, hk] at h
        exact List.mem_cons_of_mem _ (ih h)

theorem graphOf_subset_domain {p : EProgram}
    (hcl : ∀ pr ∈ p.modules, ∀ n ∈ pr.2.immediate_neighbors,
      n ∈ p.modules.map Prod.fst) :
    ∀ a, ∀ n ∈ graphOf p.modules a, n ∈ (p.modules.map Prod.fst).toFinset := by
  intro a n hn
  unfold graphOf at hn
  rcases halk : alookup p.modules a with _ | md
  · rw [halk] at hn; simp at hn
  · rw [halk] at hn
    exact List.mem_toFinset.mpr (hcl (a, md) (alookup_mem halk) n hn)

theorem mem_moduleStarts {p : EProgram} {deps : Finset String} {s : ModuleIdent} :
    s ∈ moduleStarts p deps ↔
      ∃ md, (s, md) ∈ p.modules ∧ md.loc.file ∉ deps := by
  simp only [moduleStarts, List.mem_filterMap]
  constructor
  · rintro ⟨⟨mid, md⟩, hmem, heq⟩
    by_cases hd : md.loc.file ∈ deps
    · simp [hd] at heq
    · simp [hd] at heq
      subst heq
      exact ⟨md, hmem, hd⟩
  · rintro ⟨md, hmem, hd⟩
    exact ⟨(s, md), hmem, by simp [hd]⟩

theorem mem_scriptStarts {p : EProgram} {deps : Finset String} {n : ModuleIdent} :
    n ∈ scriptStarts p deps ↔
      ∃ pr ∈ p.scripts, pr.2.loc.file ∉ deps ∧ n ∈ pr.2.immediate_neighbors := by
  simp only [scriptStarts, List.mem_flatten, List.mem_map]
  constructor
  · rintro ⟨l, ⟨⟨key, s⟩, hmem, heq⟩, hn⟩
    by_cases hd : s.loc.file ∈ deps
    · simp [hd] at heq; subst heq; simp at hn
    · simp [hd] at heq
      subst heq
      exact ⟨(key, s), hmem, hd, hn⟩
  · rintro ⟨⟨key, s⟩, hmem, hd, hn⟩
    exact ⟨s.immediate_neighbors, ⟨(key, s), hmem, by simp [hd]⟩, hn⟩

theorem mem_visitedModules {p : EProgram} {deps : Finset String}
    (hcl : ∀ pr ∈ p.modules, ∀ n ∈ pr.2.immediate_neighbors,
      n ∈ p.modules.map Prod.fst)
    (hs : ∀ pr ∈ p.scripts, ∀ n ∈ pr.2.immediate_neighbors,
      n ∈ p.modules.map Prod.fst)
    (mid : ModuleIdent) :
    mid ∈ visitedModules p deps ↔ reachableFromNonDep p deps mid := by
  have hg := graphOf_subset_domain hcl
  have hl : ∀ m ∈ moduleStarts p deps ++ scriptStarts p deps,
      m ∈ (p.modules.map Prod.fst).toFinset := by
    intro m hm
    rcases List.mem_append.mp hm with hm' | hm'
    · rcases mem_moduleStarts.mp hm' with ⟨md, hmem, _⟩
      exact List.mem_toFinset.mpr (List.mem_map.mpr ⟨(m, md), hmem, rfl⟩)
    · rcases mem_scriptStarts.mp hm' with ⟨pr, hmem, _, hn⟩
      exact List.mem_toFinset.mpr (hs pr hmem m hn)
  have hfuel : ((p.modules.map Prod.fst).toFinset \ ∅).card ≤ p.modules.length := by
    rw [Finset.sdiff_empty]
    calc (p.modules.map Prod.fst).toFinset.card
        ≤ (p.modules.map Prod.fst).length := List.toFinset_card_le _
      _ = p.modules.length := List.length_map _ _
  rw [visitedModules, collectAll_char hg p.modules.length _ ∅ hl hfuel mid]
  simp only [Finset.not_mem_empty, false_or]
  constructor
  · rintro ⟨m, hm, hR⟩
    rcases List.mem_append.mp hm with hm' | hm'
    · rcases mem_moduleStarts.mp hm' with ⟨md, hmem, hd⟩
      exact Or.inl ⟨(m, md), hmem, hd, hR⟩
    · rcases mem_scriptStarts.mp hm' with ⟨pr, hmem, hd, hn⟩
      exact Or.inr ⟨pr, hmem, hd, m, hn, hR⟩
  · rintro (⟨pr, hmem, hd, hR⟩ | ⟨pr, hmem, hd, n, hn, hR⟩)
    · exact ⟨pr.1, List.mem_append.mpr
        (Or.inl (mem_moduleStarts.mpr ⟨pr.2, hmem, hd⟩)), hR⟩
    · exact ⟨n, List.mem_append.mpr
        (Or.inr (mem_scriptStarts.mpr ⟨pr, hmem, hd, hn⟩)), hR⟩

/-- Claim C4: after closure filtering, a module is retained in the filtered
expanded program if and only if it occurs in the program and is reachable via
immediate-neighbour edges from some module or script whose source file is not
a dependency file; and every retained module is marked as a source module.
(The hypotheses state that every neighbour reference resolves inside the
module map, which the source asserts by `unwrap`.) -/
theorem claim_C4 (p : EProgram) (deps : Finset String)
    (hcl : ∀ pr ∈ p.modules, ∀ n ∈ pr.2.immediate_neighbors,
      n ∈ p.modules.map Prod.fst)
    (hs : ∀ pr ∈ p.scripts, ∀ n ∈ pr.2.immediate_neighbors,
      n ∈ p.modules.map Prod.fst) :
    (∀ mid : ModuleIdent,
      (∃ md, (mid, md) ∈ (filterProgram p deps).modules) ↔
        ((∃ md, (mid, md) ∈ p.modules) ∧ reachableFromNonDep p deps mid)) ∧
    (∀ pr ∈ (filterProgram p deps).modules, pr.2.is_source_module = true) := by
  constructor
  · intro mid
    rw [← mem_visitedModules hcl hs mid]
    simp only [filterProgram, List.mem_filterMap]
    constructor
    · rintro ⟨md2, ⟨mid2, md⟩, hmem, heq⟩
      by_cases hv : (mid2, md).1 ∈ visitedModules p deps
      · simp only [if_pos hv, Option.some.injEq, Prod.mk.injEq] at heq
        obtain ⟨rfl, _⟩ := heq
        exact ⟨⟨md, hmem⟩, hv⟩
      · simp [if_neg hv] at heq
    · rintro ⟨⟨md, hmem⟩, hv⟩
      exact ⟨{ md with is_source_module := true }, (mid, md), hmem, by simp [hv]⟩
  · rintro ⟨mid, md2⟩ hmem
    simp only [filterProgram, List.mem_filterMap] at hmem
    rcases hmem with ⟨⟨mid2, md⟩, _, heq⟩
    by_cases hv : (mid2, md).1 ∈ visitedModules p deps
    · simp only [if_pos hv, Option.some.injEq, Prod.mk.injEq] at heq
      obtain ⟨_, rfl⟩ := heq
      rfl
    · simp [if_neg hv] at heq

/-- Witness for C4 on a one-module target program. -/
theorem claim_C4_wit :
    (∀ mid : ModuleIdent,
      (∃ md, (mid, md) ∈ (filterProgram exProg4 ∅).modules) ↔
        ((∃ md, (mid, md) ∈ exProg4.modules) ∧
          reachableFromNonDep exProg4 ∅ mid)) ∧
    (∀ pr ∈ (filterProgram exProg4 ∅).modules, pr.2.is_source_module = true) :=
  claim_C4 exProg4 ∅ (by decide) (by decide)

/-! ## Lemmas: source registration, diagnostics, documentation -/

theorem foldl_add_source_spec (files : Files) (isDep : String → Bool) :
    ∀ (l : List String) (env : GlobalEnv),
      ((l.foldl (fun e fn =>
          GlobalEnv.add_source e fn ((alookup files fn).getD "") (isDep fn))
          env).sources =
        env.sources ++ l.map (fun fn => (fn, (alookup files fn).getD "", isDep fn))) ∧
      ((l.foldl (fun e fn =>
          GlobalEnv.add_source e fn ((alookup files fn).getD "") (isDep fn))
          env).diags = env.diags) ∧
      ((l.foldl (fun e fn =>
          GlobalEnv.add_source e fn ((alookup files fn).getD "") (isDep fn))
          env).docs = env.docs) := by
  intro l
  induction l with
  | nil => intro env; exact ⟨by simp, rfl, rfl⟩
  | cons fn rest ih =>
      intro env
      rcases ih (env.add_source fn ((alookup files fn).getD "") (isDep fn)) with
        ⟨h1, h2, h3⟩
      refine ⟨?_, ?_, ?_⟩
      · rw [List.foldl_cons, h1]
        simp [GlobalEnv.add_source]
      · rw [List.foldl_cons, h2]
        rfl
      · rw [List.foldl_cons, h3]
        rfl

theorem addSources_sources (env : GlobalEnv) (files : Files)
    (isDep : String → Bool) :
    (addSources env files isDep).sources =
      env.sources ++
        (sortedKeys files).map
          (fun fn => (fn, (alookup files fn).getD "", isDep fn)) :=
  (foldl_add_source_spec files isDep (sortedKeys files) env).1

theorem addSources_diags (env : GlobalEnv) (files : Files)
    (isDep : String → Bool) :
    (addSources env files isDep).diags = env.diags :=
  (foldl_add_source_spec files isDep (sortedKeys files) env).2.1

theorem mk_label_congr {env1 env2 : GlobalEnv}
    (h : env1.sources = env2.sources) (e : MLabel) :
    mk_label env1 e = mk_label env2 e := by
  simp [mk_label, GlobalEnv.to_loc, GlobalEnv.get_file_id, h]

theorem aml_sources :
    ∀ (errs : Errors) (env : GlobalEnv),
      (add_move_lang_errors env errs).sources = env.sources := by
  intro errs
  induction errs with
  | nil => intro env; rfl
  | cons err rest ih =>
      intro env
      show (add_move_lang_errors (env.add_diag _) rest).sources = _
      rw [ih]
      rfl

theorem aml_diags :
    ∀ (errs : Errors) (env : GlobalEnv),
      (add_move_lang_errors env errs).diags =
        env.diags ++
          errs.map
            (fun err =>
              { primary := mk_label env err.primary
                secondary := err.secondary.map (mk_label env) }) := by
  intro errs
  induction errs with
  | nil => intro env; simp [add_move_lang_errors]
  | cons err rest ih =>
      intro env
      show (add_move_lang_errors (env.add_diag _) rest).diags = _
      rw [ih]
      have hsrc : (env.add_diag
          { primary := mk_label env err.primary
            secondary := err.secondary.map (mk_label env) }).sources =
          env.sources := rfl
      have hlab : mk_label (env.add_diag
          { primary := mk_label env err.primary
            secondary := err.secondary.map (mk_label env) }) =
          mk_label env := funext (mk_label_congr hsrc)
      rw [hlab]
      simp [GlobalEnv.add_diag]

theorem get_file_id_aux_lt :
    ∀ (l : List (String × String × Bool)) (fname : String) (i j : Nat),
      get_file_id_aux l fname i = some j → j < i + l.length := by
  intro l
  induction l with
  | nil => intro fname i j h; simp [get_file_id_aux] at h
  | cons hd tl ih =>
      intro fname i j h
      obtain ⟨f, rest⟩ := hd
      by_cases hf : fname = f
      · simp [get_file_id_aux, hf] at h
        subst h
        simp
      · simp [get_file_id_aux, hf] at h
        have := ih fname (i + 1) j h
        simp only [List.length_cons]
        omega

theorem get_file_id_aux_isSome :
    ∀ (l : List (String × String × Bool)) (fname : String) (i : Nat),
      fname ∈ l.map (fun s => s.1) → (get_file_id_aux l fname i).isSome := by
  intro l
  induction l with
  | nil => intro fname i h; simp at h
  | cons hd tl ih =>
      intro fname i h
      obtain ⟨f, rest⟩ := hd
      by_cases hf : fname = f
      · simp [get_file_id_aux, hf]
      · simp [get_file_id_aux, hf]
        rcases List.mem_map.mp h with ⟨q, hq, hq1⟩
        rcases List.mem_cons.mp hq with rfl | hq'
        · exact absurd hq1.symm hf
        · exact ih fname (i + 1) (List.mem_map.mpr ⟨q, hq', hq1⟩)

theorem get_file_id_resolves (env : GlobalEnv) (fname : String)
    (h : fname ∈ env.sources.map (fun s => s.1)) :
    ∃ i, env.get_file_id fname = some i ∧ i < env.sources.length := by
  have hs := get_file_id_aux_isSome env.sources fname 0 h
  rcases Option.isSome_iff_exists.mp hs with ⟨i, hi⟩
  refine ⟨i, hi, ?_⟩
  have := get_file_id_aux_lt env.sources fname 0 i hi
  omega

theorem mem_insertSorted :
    ∀ (l : List String) (x a : String), a ∈ insertSorted x l ↔ a = x ∨ a ∈ l := by
  intro l
  induction l with
  | nil => intro x a; simp [insertSorted]
  | cons y ys ih =>
      intro x a
      by_cases hxy : x ≤ y
      · simp [insertSorted, hxy]
      · simp [insertSorted, hxy, ih]
        tauto

theorem mem_sortedKeys (files : Files) (f : String) :
    f ∈ sortedKeys files ↔ f ∈ files.map Prod.fst := by
  rw [sortedKeys]
  generalize files.map Prod.fst = l
  induction l with
  | nil => simp
  | cons x xs ih =>
      simp only [List.foldr_cons, mem_insertSorted, ih, List.mem_cons]

theorem addDocs_total :
    ∀ (cm : CommentMap) (env : GlobalEnv),
      (∀ q ∈ cm, q.1 ∈ env.sources.map (fun s => s.1)) →
      ∃ env2, addDocs env cm = some env2 := by
  intro cm
  induction cm with
  | nil => intro env _; exact ⟨env, rfl⟩
  | cons q rest ih =>
      intro env h
      obtain ⟨fname, doc⟩ := q
      have hmem := h (fname, doc) (List.mem_cons_self _ _)
      have hs := get_file_id_aux_isSome env.sources fname 0 hmem
      rcases Option.isSome_iff_exists.mp hs with ⟨i, hi⟩
      have hi' : env.get_file_id fname = some i := hi
      rcases ih { env with docs := env.docs ++ [(i, doc)] }
          (fun q2 hq2 => h q2 (List.mem_cons_of_mem _ hq2)) with ⟨env2, henv2⟩
      exact ⟨env2, by rw [addDocs, hi']; exact henv2⟩

/-- The environment returned on the parser-error path. -/
theorem parse_fail_env (fe : FrontEnd) (files : Files) (errors : Errors)
    (hpr : fe.parseRun = .ok (files, .error errors)) :
    run_model_builder_with_compilation_flags fe =
      .ok (some (add_move_lang_errors
        (addSources GlobalEnv.new files (fun _ => false)) errors)) := by
  simp [run_model_builder_with_compilation_flags, hpr]

theorem map_fst_triple (l : List String) (f : String → String)
    (g : String → Bool) :
    ((l.map (fun fn => (fn, f fn, g fn))).map
      (fun s : String × String × Bool => s.1)) = l := by
  induction l with
  | nil => rfl
  | cons x xs ih => simp [ih]

theorem aml_diags_of (env : GlobalEnv) (errs : Errors) :
    (add_move_lang_errors env errs).diags =
      env.diags ++ errs.map (diag_of env) :=
  aml_diags errs env

/-- The run when the documentation loop panics (`expect` fails). -/
theorem run_docs_panic (fe : FrontEnd) (files : Files) (cm : CommentMap)
    (pp : PProgram) (hpr : fe.parseRun = .ok (files, .ok (cm, pp)))
    (hdocs : addDocs (addSources GlobalEnv.new files
      (fun f => decide (f ∈ (pp.lib_definitions.map PDef.file).toFinset))) cm =
      none) :
    run_model_builder_with_compilation_flags fe = .ok none := by
  simp only [run_model_builder_with_compilation_flags, hpr, hdocs]

/-- The run when the expansion stage fails. -/
theorem run_expand_fail (fe : FrontEnd) (files : Files) (cm : CommentMap)
    (pp : PProgram) (env2 : GlobalEnv) (errs : Errors)
    (hpr : fe.parseRun = .ok (files, .ok (cm, pp)))
    (hdocs : addDocs (addSources GlobalEnv.new files
      (fun f => decide (f ∈ (pp.lib_definitions.map PDef.file).toFinset))) cm =
      some env2)
    (hexp : fe.expand (flattenProg pp) = .error errs) :
    run_model_builder_with_compilation_flags fe =
      .ok (some (add_move_lang_errors env2 errs)) := by
  simp only [run_model_builder_with_compilation_flags, hpr, hdocs, hexp]

/-- The run when the compilation stage fails. -/
theorem run_compile_fail (fe : FrontEnd) (files : Files) (cm : CommentMap)
    (pp : PProgram) (env2 : GlobalEnv) (east : EProgram) (errs : Errors)
    (hpr : fe.parseRun = .ok (files, .ok (cm, pp)))
    (hdocs : addDocs (addSources GlobalEnv.new files
      (fun f => decide (f ∈ (pp.lib_definitions.map PDef.file).toFinset))) cm =
      some env2)
    (hexp : fe.expand (flattenProg pp) = .ok east)
    (hcomp : fe.compile (filterProgram east
      (pp.lib_definitions.map PDef.file).toFinset) = .error errs) :
    run_model_builder_with_compilation_flags fe =
      .ok (some (add_move_lang_errors env2 errs)) := by
  simp only [run_model_builder_with_compilation_flags, hpr, hdocs, hexp, hcomp]

/-- The run when the bytecode verifier reports errors. -/
theorem run_verify_fail (fe : FrontEnd) (files : Files) (cm : CommentMap)
    (pp : PProgram) (env2 : GlobalEnv) (east : EProgram)
    (units : List CompiledUnit)
    (hpr : fe.parseRun = .ok (files, .ok (cm, pp)))
    (hdocs : addDocs (addSources GlobalEnv.new files
      (fun f => decide (f ∈ (pp.lib_definitions.map PDef.file).toFinset))) cm =
      some env2)
    (hexp : fe.expand (flattenProg pp) = .ok east)
    (hcomp : fe.compile (filterProgram east
      (pp.lib_definitions.map PDef.file).toFinset) = .ok units)
    (hv : (fe.verify units).2.isEmpty = false) :
    run_model_builder_with_compilation_flags fe =
      .ok (some (add_move_lang_errors env2 (fe.verify units).2)) := by
  simp only [run_model_builder_with_compilation_flags, hpr, hdocs, hexp, hcomp,
    hv, Bool.false_eq_true, if_false]

/-- The run when every stage succeeds. -/
theorem run_all_ok (fe : FrontEnd) (files : Files) (cm : CommentMap)
    (pp : PProgram) (env2 : GlobalEnv) (east : EProgram)
    (units : List CompiledUnit)
    (hpr : fe.parseRun = .ok (files, .ok (cm, pp)))
    (hdocs : addDocs (addSources GlobalEnv.new files
      (fun f => decide (f ∈ (pp.lib_definitions.map PDef.file).toFinset))) cm =
      some env2)
    (hexp : fe.expand (flattenProg pp) = .ok east)
    (hcomp : fe.compile (filterProgram east
      (pp.lib_definitions.map PDef.file).toFinset) = .ok units)
    (hv : (fe.verify units).2.isEmpty = true) :
    run_model_builder_with_compilation_flags fe =
      .ok (some (run_spec_checker env2 (fe.verify units).1
        (filterProgram east (pp.lib_definitions.map PDef.file).toFinset)).1) := by
  simp only [run_model_builder_with_compilation_flags, hpr, hdocs, hexp, hcomp,
    hv, if_true]

/-- Counterexample for C1 as stated: an input on which the parser invocation
itself hard-fails (its `anyhow::Result` channel) makes
`run_model_builder_with_compilation_flags` propagate the failure through `?`
instead of returning an environment. -/
theorem claim_C1_cex :
    run_model_builder_with_compilation_flags feHard = .error "io error" := rfl

/-- Claim C1 (amended): for every input on which the parser invocation itself
succeeds (the hard result channel the source propagates with `?`), the
function never propagates a hard failure — it returns `Ok` — and every
front-end stage failure it encounters is converted into diagnostics
accumulated in the returned environment: a parse failure returns the
file-registered environment carrying exactly the converted diagnostics of the
reported errors, and an expansion, compilation or verification failure returns
the environment built so far extended with exactly the converted diagnostics
of that stage's errors. -/
theorem claim_C1 (fe : FrontEnd) (files : Files)
    (res : Except Errors (CommentMap × PProgram))
    (hpr : fe.parseRun = .ok (files, res)) :
    (∃ r, run_model_builder_with_compilation_flags fe = .ok r) ∧
    (∀ errs, res = .error errs →
      ∃ env, run_model_builder_with_compilation_flags fe = .ok (some env) ∧
        env.diags = errs.map (diag_of
          (addSources GlobalEnv.new files (fun _ => false)))) ∧
    (∀ cm pp env2, res = .ok (cm, pp) →
      addDocs (addSources GlobalEnv.new files
        (fun f => decide (f ∈ (pp.lib_definitions.map PDef.file).toFinset))) cm =
        some env2 →
      (∀ errs, fe.expand (flattenProg pp) = .error errs →
        ∃ env, run_model_builder_with_compilation_flags fe = .ok (some env) ∧
          env.diags = env2.diags ++ errs.map (diag_of env2)) ∧
      (∀ east errs, fe.expand (flattenProg pp) = .ok east →
        fe.compile (filterProgram east
          (pp.lib_definitions.map PDef.file).toFinset) = .error errs →
        ∃ env, run_model_builder_with_compilation_flags fe = .ok (some env) ∧
          env.diags = env2.diags ++ errs.map (diag_of env2)) ∧
      (∀ east units, fe.expand (flattenProg pp) = .ok east →
        fe.compile (filterProgram east
          (pp.lib_definitions.map PDef.file).toFinset) = .ok units →
        (fe.verify units).2.isEmpty = false →
        ∃ env, run_model_builder_with_compilation_flags fe = .ok (some env) ∧
          env.diags = env2.diags ++
            ((fe.verify units).2).map (diag_of env2))) := by
  refine ⟨?_, ?_, ?_⟩
  · cases res with
    | error errors => exact ⟨some _, parse_fail_env fe files errors hpr⟩
    | ok pr =>
        obtain ⟨cm, pp⟩ := pr
        cases hdocs : addDocs (addSources GlobalEnv.new files
            (fun f => decide (f ∈ (pp.lib_definitions.map PDef.file).toFinset)))
            cm with
        | none => exact ⟨none, run_docs_panic fe files cm pp hpr hdocs⟩
        | some env2 =>
            cases hexp : fe.expand (flattenProg pp) with
            | error errors =>
                exact ⟨some _,
                  run_expand_fail fe files cm pp env2 errors hpr hdocs hexp⟩
            | ok east =>
                cases hcomp : fe.compile (filterProgram east
                    (pp.lib_definitions.map PDef.file).toFinset) with
                | error errors =>
                    exact ⟨some _, run_compile_fail fe files cm pp env2 east
                      errors hpr hdocs hexp hcomp⟩
                | ok units =>
                    cases hv : (fe.verify units).2.isEmpty with
                    | true =>
                        exact ⟨some _, run_all_ok fe files cm pp env2 east
                          units hpr hdocs hexp hcomp hv⟩
                    | false =>
                        exact ⟨some _, run_verify_fail fe files cm pp env2 east
                          units hpr hdocs hexp hcomp hv⟩
  · intro errs heq
    subst heq
    refine ⟨_, parse_fail_env fe files errs hpr, ?_⟩
    rw [aml_diags_of, addSources_diags]
    rfl
  · intro cm pp env2 heq hdocs
    subst heq
    refine ⟨?_, ?_, ?_⟩
    · intro errs hexp
      exact ⟨_, run_expand_fail fe files cm pp env2 errs hpr hdocs hexp,
        aml_diags_of env2 errs⟩
    · intro east errs hexp hcomp
      exact ⟨_,
        run_compile_fail fe files cm pp env2 east errs hpr hdocs hexp hcomp,
        aml_diags_of env2 errs⟩
    · intro east units hexp hcomp hv
      exact ⟨_,
        run_verify_fail fe files cm pp env2 east units hpr hdocs hexp hcomp hv,
        aml_diags_of env2 ((fe.verify units).2)⟩

/-- Witness for C1 (amended): the parse-failure channel of the claim at a
front end reporting one parse error. -/
theorem claim_C1_wit :
    ∃ env, run_model_builder_with_compilation_flags feParseErrs = .ok (some env) ∧
      env.diags = [⟨((⟨"a.move", 0⟩ : MLoc), "unexpected token"), []⟩].map
        (diag_of (addSources GlobalEnv.new [("a.move", "module")]
          (fun _ => false))) :=
  (claim_C1 feParseErrs [("a.move", "module")]
      (.error [⟨((⟨"a.move", 0⟩ : MLoc), "unexpected token"), []⟩]) rfl).2.1
    [⟨((⟨"a.move", 0⟩ : MLoc), "unexpected token"), []⟩] rfl

/-- Claim C2: when the parser stage fails, the returned environment's
source-file table lists (in sorted order) exactly the files the parser
reported, each marked non-dependency; the parse failure is recorded as one
diagnostic per error, whose every label resolves to a valid file id (the
error locations referring to reported files, as the parser guarantees); and
the run is determined by the parse outcome alone — later stages never run. -/
theorem claim_C2 (fe : FrontEnd) (files : Files) (errors : Errors)
    (hpr : fe.parseRun = .ok (files, .error errors))
    (hres : ∀ e ∈ errors, e.primary.1.file ∈ files.map Prod.fst ∧
      ∀ lab ∈ e.secondary, lab.1.file ∈ files.map Prod.fst) :
    ∃ env, run_model_builder_with_compilation_flags fe = .ok (some env) ∧
      env.sources.map (fun s => s.1) = sortedKeys files ∧
      (∀ f, f ∈ env.sources.map (fun s => s.1) ↔ f ∈ files.map Prod.fst) ∧
      (∀ s ∈ env.sources, s.2.2 = false) ∧
      env.diags.length = errors.length ∧
      (∀ d ∈ env.diags,
        (∃ i, d.primary.file_id = some i ∧ i < env.sources.length) ∧
        ∀ lab ∈ d.secondary, ∃ i, lab.file_id = some i ∧ i < env.sources.length) ∧
      (∀ fe2 : FrontEnd, fe2.parseRun = fe.parseRun →
        run_model_builder_with_compilation_flags fe2 =
          run_model_builder_with_compilation_flags fe) := by
  have hbnames : (addSources GlobalEnv.new files (fun _ => false)).sources.map
      (fun s => s.1) = sortedKeys files := by
    rw [addSources_sources]
    exact map_fst_triple (sortedKeys files) _ _
  have hsrcE : (add_move_lang_errors
      (addSources GlobalEnv.new files (fun _ => false)) errors).sources =
      (addSources GlobalEnv.new files (fun _ => false)).sources :=
    aml_sources errors _
  have hnames : (add_move_lang_errors
      (addSources GlobalEnv.new files (fun _ => false)) errors).sources.map
      (fun s => s.1) = sortedKeys files := by
    rw [hsrcE]
    exact hbnames
  have hbdiags : (addSources GlobalEnv.new files (fun _ => false)).diags = [] := by
    rw [addSources_diags]
    rfl
  refine ⟨add_move_lang_errors
      (addSources GlobalEnv.new files (fun _ => false)) errors,
    parse_fail_env fe files errors hpr, hnames, ?_, ?_, ?_, ?_, ?_⟩
  · intro f
    rw [hnames]
    exact mem_sortedKeys files f
  · intro s hs
    rw [hsrcE, addSources_sources] at hs
    simp only [GlobalEnv.new, List.nil_append] at hs
    rcases List.mem_map.mp hs with ⟨fn, _, hfn⟩
    rw [← hfn]
  · rw [aml_diags, hbdiags]
    simp
  · intro d hd
    rw [aml_diags, hbdiags] at hd
    simp only [List.nil_append] at hd
    rcases List.mem_map.mp hd with ⟨err, herr, hconv⟩
    have hresolve : ∀ lab : MLabel, lab.1.file ∈ files.map Prod.fst →
        ∃ i, (mk_label (addSources GlobalEnv.new files (fun _ => false)) lab).file_id
            = some i ∧
          i < (add_move_lang_errors
            (addSources GlobalEnv.new files (fun _ => false)) errors).sources.length := by
      intro lab hlab
      have hmem : lab.1.file ∈
          (addSources GlobalEnv.new files (fun _ => false)).sources.map
            (fun s => s.1) := by
        rw [hbnames]
        exact (mem_sortedKeys files lab.1.file).mpr hlab
      rcases get_file_id_resolves _ lab.1.file hmem with ⟨i, hi, hlt⟩
      refine ⟨i, hi, ?_⟩
      rw [hsrcE]
      exact hlt
    constructor
    · rw [← hconv]
      exact hresolve err.primary (hres err herr).1
    · intro lab hlab
      rw [← hconv] at hlab
      simp only at hlab
      rcases List.mem_map.mp hlab with ⟨l0, hl0, hl0c⟩
      rw [← hl0c]
      exact hresolve l0 ((hres err herr).2 l0 hl0)
  · intro fe2 h2
    rw [parse_fail_env fe2 files errors (h2.trans hpr),
      parse_fail_env fe files errors hpr]

/-- Witness for C2 at a front end reporting one parse error in one file. -/
theorem claim_C2_wit :
    ∃ env, run_model_builder_with_compilation_flags feParseErrs = .ok (some env) ∧
      env.sources.map (fun s => s.1) = sortedKeys [("a.move", "module")] := by
  rcases claim_C2 feParseErrs [("a.move", "module")]
      [⟨((⟨"a.move", 0⟩ : MLoc), "unexpected token"), []⟩] rfl (by simp) with
    ⟨env, h1, h2, _⟩
  exact ⟨env, h1, h2⟩

/-! ## Lemmas: the merge stage -/

theorem runUnitsAux_spec (nm : List (String × AddressBytes)) :
    ∀ (l : List MergedModule) (env : GlobalEnv) (k : Nat),
      ∃ D, (runUnitsAux nm env k l).module_data = env.module_data ++ D ∧
        D.map (fun d => d.id) = List.range' k l.length ∧
        D.map (fun d => d.compiled) = l.map (fun mu => mu.compiled) := by
  intro l
  induction l with
  | nil => intro env k; exact ⟨[], by simp [runUnitsAux], rfl, rfl⟩
  | cons mu rest ih =>
      intro env k
      rcases ih (translate env nm k mu) (k + 1) with ⟨D, hD, hid, hcm⟩
      refine ⟨{ name := (resolve_address nm mu.ident.1, mu.ident.2)
                id := k
                compiled := mu.compiled
                function_data :=
                  mu.emod.functions.map (fun pr => (pr.1, FunctionData.full pr.1))
                struct_data :=
                  (mu.emod.structs.enum).map
                    (fun pr =>
                      (pr.2.1,
                       { sym := pr.2.1, def_idx := pr.1
                         loc := env.to_loc mu.emod.loc, spec := [] }))
                function_idx_to_id :=
                  (mu.emod.functions.enum).map (fun pr => (pr.1, pr.2.1))
                struct_idx_to_id :=
                  (mu.emod.structs.enum).map (fun pr => (pr.1, pr.2.1)) } :: D,
        ?_, ?_, ?_⟩
      · rw [runUnitsAux, hD]
        simp [translate]
      · simp only [List.map_cons, hid, List.length_cons, List.range'_succ]
      · simp only [List.map_cons, hcm, List.map]

/-- Claim C5: each verified compiled unit with a matching expanded definition
yields exactly one `ModuleData` entry, appended to the environment; the
allocated module identities are the sequential integers `0..n-1` in exactly
the order of the (topologically sorted) input unit sequence, as shown by the
identity list being `range` and the per-entry compiled modules listing the
merged units in input order. -/
theorem claim_C5 (env : GlobalEnv) (units : List CompiledUnit) (p : EProgram) :
    ∃ D, (run_spec_checker env units p).1.module_data = env.module_data ++ D ∧
      D.map (fun d => d.id) =
        List.range (mergeUnits units p.modules p.scripts).1.length ∧
      D.map (fun d => d.compiled) =
        (mergeUnits units p.modules p.scripts).1.map (fun mu => mu.compiled) := by
  rcases runUnitsAux_spec
      (p.addresses.filterMap (fun pr => pr.2.map (fun b => (pr.1, b))))
      (mergeUnits units p.modules p.scripts).1 env 0 with ⟨D, h1, h2, h3⟩
  refine ⟨D, ?_, ?_, h3⟩
  · simpa [run_spec_checker, warn_unused_schemas] using h1
  · rw [List.range_eq_range']
    exact h2

/-- Claim C6 (amended): the pseudo-module synthesised from a compiled script
has exactly one function (the script's), no structs, an empty friend set, is
marked as a source module, and carries the anonymous default-error sentinel
address; that address differs from every module address other than the
anonymous sentinel itself (a real module may legally sit at the sentinel
address, see the counterexample). -/
theorem claim_C6 (cs : CompiledScript) (smap : SourceMap)
    (finfo : FunctionInfo) (s : Script) :
    (scriptToModule cs smap finfo s).emod.functions =
        [(s.function_name, s.function)] ∧
    (scriptToModule cs smap finfo s).emod.structs = [] ∧
    (scriptToModule cs smap finfo s).emod.friends = [] ∧
    (scriptToModule cs smap finfo s).emod.is_source_module = true ∧
    (scriptToModule cs smap finfo s).ident.1 =
        Address.anonymous DEFAULT_ERROR_BYTES ∧
    ∀ a : Address, a ≠ Address.anonymous DEFAULT_ERROR_BYTES →
      (scriptToModule cs smap finfo s).ident.1 ≠ a := by
  refine ⟨rfl, rfl, rfl, rfl, rfl, ?_⟩
  intro a ha h
  exact ha h.symm

/-- Counterexample for C6 as stated: merging one real module that sits at the
anonymous default-error address together with one script yields two merged
units with the same address — the pseudo-module's sentinel address does not
differ from every real module's address. -/
theorem claim_C6_cex :
    (mergeUnits exUnits6 exMods6 exScrs6).1.map (fun mu => mu.ident.1) =
      [Address.anonymous DEFAULT_ERROR_BYTES,
       Address.anonymous DEFAULT_ERROR_BYTES] := by
  rfl

/-- Witness for C6 at a concrete script and a concrete distinct address. -/
theorem claim_C6_wit :
    (scriptToModule ⟨exCompMod⟩ 0 0 exScript).ident.1 ≠ Address.named "A" :=
  (claim_C6 ⟨exCompMod⟩ 0 0 exScript).2.2.2.2.2 (Address.named "A") (by decide)

/-- Claim C7: a compiled unit with no matching expanded definition is skipped
with a warning — it contributes no `ModuleData` (the resulting environment is
the one produced from the remaining units, all of which are still processed),
and the merge never fails. -/
theorem claim_C7 (env : GlobalEnv) (p : EProgram) (u : CompiledUnit)
    (rest : List CompiledUnit) (h : noMatch u p.modules p.scripts) :
    (run_spec_checker env (u :: rest) p).1 = (run_spec_checker env rest p).1 ∧
    (run_spec_checker env (u :: rest) p).2 =
      warnMsg u :: (run_spec_checker env rest p).2 := by
  cases u with
  | module ident cmod smap finfos =>
      have h' : lookupRemove p.modules ident = none := h
      constructor <;> simp [run_spec_checker, mergeUnits, h', warnMsg]
  | script loc key cs smap finfo =>
      have h' : lookupRemove p.scripts key = none := h
      constructor <;> simp [run_spec_checker, mergeUnits, h', warnMsg]

/-- Witness for C7: a module unit merged against an empty expanded program. -/
theorem claim_C7_wit :
    (run_spec_checker GlobalEnv.new [exUnit7] exProgEmpty).1 =
        (run_spec_checker GlobalEnv.new [] exProgEmpty).1 ∧
    (run_spec_checker GlobalEnv.new [exUnit7] exProgEmpty).2 =
      warnMsg exUnit7 :: (run_spec_checker GlobalEnv.new [] exProgEmpty).2 :=
  claim_C7 GlobalEnv.new exProgEmpty exUnit7 [] rfl

/-! ## Lemmas: the function-target IR -/

theorem registerAll_eq :
    ∀ (fs : List (Nat → Option String)) (t : FunctionTarget),
      registerAll t fs = ⟨t.func_env, t.data, t.annot_formatters ++ fs⟩ := by
  intro fs
  induction fs with
  | nil => intro t; cases t; simp [registerAll]
  | cons f fs ih =>
      intro t
      show registerAll (register_annot_formatter t f) fs = _
      rw [ih]
      simp [register_annot_formatter]

/-- Claim C8: displaying a function target is deterministic — rendering
depends only on the function environment, the target data and the formatter
sequence (so rendering twice with unchanged data is byte-identical); per-offset
annotation strings list the formatter outputs in exactly registration order;
and registering formatters changes neither the stored data nor the function
environment, only appending to the formatter list. -/
theorem claim_C8 (t : FunctionTarget) (fs : List (Nat → Option String)) :
    (registerAll t fs).data = t.data ∧
    (registerAll t fs).func_env = t.func_env ∧
    (registerAll t fs).annot_formatters = t.annot_formatters ++ fs ∧
    (∀ o, annotStringsAt (registerAll t fs) o =
      (t.annot_formatters ++ fs).filterMap (fun f => f o)) ∧
    (∀ t1 t2 : FunctionTarget, t1.func_env = t2.func_env → t1.data = t2.data →
      t1.annot_formatters = t2.annot_formatters → fmt t1 = fmt t2) := by
  rw [registerAll_eq fs t]
  refine ⟨rfl, rfl, rfl, fun o => rfl, ?_⟩
  intro t1 t2 h1 h2 h3
  cases t1
  cases t2
  simp only at h1 h2 h3
  subst h1
  subst h2
  subst h3
  rfl

/-- Witness for C8: rendering the concrete target twice is identical, via the
determinism clause of the claim. -/
theorem claim_C8_wit : fmt exTarget = fmt exTarget :=
  (claim_C8 exTarget [exFmtr]).2.2.2.2 exTarget exTarget rfl rfl rfl

/-- Claim C9: the index-based queries are safe inside the ranges given by
`get_local_count` and `get_return_count`, and an out-of-range index hits the
Rust indexing panic (embedded as `none`) — a fatal caller-contract violation,
not a recoverable error value. -/
theorem claim_C9 (t : FunctionTarget) (i j k l : Nat)
    (h1 : i < get_local_count t) (h2 : j < get_return_count t)
    (h3 : get_local_count t ≤ k) (h4 : get_return_count t ≤ l) :
    (get_local_type t i).isSome ∧ (get_return_type t j).isSome ∧
      get_local_type t k = none ∧ get_return_type t l = none := by
  refine ⟨?_, ?_, ?_, ?_⟩
  · rcases List.get?_eq_get h1 with h
    rw [get_local_type, h]
    rfl
  · rcases List.get?_eq_get h2 with h
    rw [get_return_type, h]
    rfl
  · exact List.get?_eq_none.mpr h3
  · exact List.get?_eq_none.mpr h4

/-- Witness for C9 at a concrete target with two locals and one return. -/
theorem claim_C9_wit :
    (get_local_type exTarget 0).isSome ∧ (get_return_type exTarget 0).isSome ∧
      get_local_type exTarget 5 = none ∧ get_return_type exTarget 7 = none :=
  claim_C9 exTarget 0 0 5 7 (by decide) (by decide) (by decide) (by decide)

/-! ## Lemmas: the bytecode-only builder -/

theorem buildModule_spec (env : GlobalEnv) (k : Nat) (m : CompiledModule) :
    ∃ md, (buildModule env k m).module_data = env.module_data ++ [md] ∧
      md.id = k ∧ md.compiled = m ∧
      (∀ pr ∈ md.struct_data, pr.2.loc = Loc.dfl ∧ pr.2.spec = []) ∧
      (∀ pr ∈ md.function_data,
        ∃ sym idx h, pr.2 = FunctionData.stub sym idx h) := by
  refine ⟨_, rfl, rfl, rfl, ?_, ?_⟩
  · intro pr hpr
    rcases List.mem_map.mp hpr with ⟨q, _, hq⟩
    rw [← hq]
    exact ⟨rfl, rfl⟩
  · intro pr hpr
    rcases List.mem_map.mp hpr with ⟨q, _, hq⟩
    rw [← hq]
    exact ⟨_, _, _, rfl⟩

theorem buildModules_spec :
    ∀ (l : List CompiledModule) (env : GlobalEnv) (k : Nat),
      ∃ D, (buildModules env k l).module_data = env.module_data ++ D ∧
        D.map (fun d => d.id) = List.range' k l.length ∧
        D.map (fun d => d.compiled) = l ∧
        ∀ md ∈ D,
          (∀ pr ∈ md.struct_data, pr.2.loc = Loc.dfl ∧ pr.2.spec = []) ∧
          (∀ pr ∈ md.function_data,
            ∃ sym idx h, pr.2 = FunctionData.stub sym idx h) := by
  intro l
  induction l with
  | nil =>
      intro env k
      exact ⟨[], by simp [buildModules], rfl, rfl, by simp⟩
  | cons m rest ih =>
      intro env k
      rcases ih (buildModule env k m) (k + 1) with ⟨D, hD, hid, hcm, hstub⟩
      rcases buildModule_spec env k m with ⟨mdK, hbm, hbid, hbcm, hbst, hbfn⟩
      refine ⟨mdK :: D, ?_, ?_, ?_, ?_⟩
      · rw [buildModules, hD, hbm]
        simp
      · simp only [List.map_cons, hid, List.length_cons, List.range'_succ, hbid]
      · simp only [List.map_cons, hcm, hbcm]
      · intro md hmd
        rcases List.mem_cons.mp hmd with rfl | hmd'
        · exact ⟨hbst, hbfn⟩
        · exact hstub md hmd'

/-- Claim C10: the bytecode-only builder always returns `Ok` (its body has no
failure path); the `i`-th input module receives `ModuleId i`, so identities
match the input order exactly; and every function entry is a
`FunctionData::stub` while every struct entry carries the default location and
an empty specification. -/
theorem claim_C10 (mods : List CompiledModule) :
    ∃ env, run_bytecode_model_builder mods = .ok env ∧
      env.module_data.map (fun d => d.id) = List.range mods.length ∧
      env.module_data.map (fun d => d.compiled) = mods ∧
      ∀ md ∈ env.module_data,
        (∀ pr ∈ md.struct_data, pr.2.loc = Loc.dfl ∧ pr.2.spec = []) ∧
        (∀ pr ∈ md.function_data,
          ∃ sym idx h, pr.2 = FunctionData.stub sym idx h) := by
  rcases buildModules_spec mods GlobalEnv.new 0 with ⟨D, hD, hid, hcm, hstub⟩
  refine ⟨buildModules GlobalEnv.new 0 mods, rfl, ?_, ?_, ?_⟩
  · rw [hD, List.range_eq_range']
    simpa [GlobalEnv.new] using hid
  · rw [hD]
    simpa [GlobalEnv.new] using hcm
  · rw [hD]
    simpa [GlobalEnv.new] using hstub

end Move
